import Mathlib

/-!
Verification of the `padding` package of the reflow repository: a streaming
text transform that right-pads each line of incoming text to a fixed display
width, skipping ANSI escape sequences when measuring visible width.

Bytes and Go strings are modelled as `List Nat` (byte values); Unicode
codepoints (Go runes) as `Nat`.  The writer state and its operations are a
shallow embedding of `padding/padding.go`.  The `ansi.Writer` sink and the
`runewidth` display-width table are external to the translated source and are
modelled from the spec (see the doc comments on their definitions).
-/

namespace Reflow

/-- Modelled from the spec: the external pure display-width function
`width(codepoint) -> {0,1,2}` supplied by the go-runewidth library (spec section 9):
control characters and combining marks contribute 0 columns, East-Asian wide
glyph ranges contribute 2, everything else 1. -/
def runeWidth (c : Nat) : Nat :=
  if c < 0x20 then 0
  else if c < 0x7F then 1
  else if c < 0xA0 then 0
  else if 0x300 ≤ c ∧ c ≤ 0x36F then 0
  else if (0x1100 ≤ c ∧ c ≤ 0x115F) ∨ (0x2E80 ≤ c ∧ c ≤ 0x303E) ∨
          (0x3041 ≤ c ∧ c ≤ 0x33FF) ∨ (0x3400 ≤ c ∧ c ≤ 0x4DBF) ∨
          (0x4E00 ≤ c ∧ c ≤ 0x9FFF) ∨ (0xAC00 ≤ c ∧ c ≤ 0xD7A3) ∨
          (0xF900 ≤ c ∧ c ≤ 0xFAFF) ∨ (0xFE30 ≤ c ∧ c ≤ 0xFE4F) ∨
          (0xFF00 ≤ c ∧ c ≤ 0xFF60) ∨ (0xFFE0 ≤ c ∧ c ≤ 0xFFE6) ∨
          (0x20000 ≤ c ∧ c ≤ 0x2FFFD) ∨ (0x30000 ≤ c ∧ c ≤ 0x3FFFD) then 2
  else if c ≤ 0x10FFFF then 1
  else 0

/-- A Unicode scalar value: what Go's `utf8.EncodeRune` encodes without
falling back to the replacement character. -/
def ValidRune (c : Nat) : Prop :=
  c < 0xD800 ∨ (0xE000 ≤ c ∧ c < 0x110000)

instance (c : Nat) : Decidable (ValidRune c) :=
  inferInstanceAs (Decidable (c < 0xD800 ∨ (0xE000 ≤ c ∧ c < 0x110000)))

/-- Go `utf8.EncodeRune`: UTF-8 encoding of a codepoint, encoding the
replacement character U+FFFD for surrogates and out-of-range values. -/
def encodeRune (r : Nat) : List Nat :=
  if r < 0x80 then [r]
  else if r < 0x800 then [0xC0 + r / 0x40, 0x80 + r % 0x40]
  else if 0xD800 ≤ r ∧ r < 0xE000 then [0xEF, 0xBF, 0xBD]
  else if r < 0x10000 then
    [0xE0 + r / 0x1000, 0x80 + (r / 0x40) % 0x40, 0x80 + r % 0x40]
  else if r < 0x110000 then
    [0xF0 + r / 0x40000, 0x80 + (r / 0x1000) % 0x40,
     0x80 + (r / 0x40) % 0x40, 0x80 + r % 0x40]
  else [0xEF, 0xBF, 0xBD]

/-- Encoding of a list of codepoints, concatenated. -/
def encodeRunes : List Nat → List Nat
  | [] => []
  | r :: rs => encodeRune r ++ encodeRunes rs

/-- Is `b` a UTF-8 continuation byte (`0x80..0xBF`)? -/
def contByte (b : Nat) : Bool := 0x80 ≤ b && b < 0xC0

/-- Allowed range of the first continuation byte of a three-byte sequence,
given lead byte `b0` (Go `utf8.acceptRanges`): rejects overlong encodings
(lead `0xE0`) and surrogates (lead `0xED`). -/
def accept3 (b0 b1 : Nat) : Bool :=
  if b0 = 0xE0 then 0xA0 ≤ b1 && b1 < 0xC0
  else if b0 = 0xED then 0x80 ≤ b1 && b1 < 0xA0
  else contByte b1

/-- Allowed range of the first continuation byte of a four-byte sequence,
given lead byte `b0`: rejects overlong encodings (lead `0xF0`) and values
above U+10FFFF (lead `0xF4`). -/
def accept4 (b0 b1 : Nat) : Bool :=
  if b0 = 0xF0 then 0x90 ≤ b1 && b1 < 0xC0
  else if b0 = 0xF4 then 0x80 ≤ b1 && b1 < 0x90
  else contByte b1

/-- Go's `for _, c := range string(b)` iteration: decode a byte list as UTF-8,
yielding one codepoint per valid encoding and the replacement character
U+FFFD (consuming a single byte) at every invalid position — an invalid lead
byte, an out-of-range continuation byte, or a sequence truncated by the end
of input (Go `utf8.DecodeRuneInString`).  The match arms are flattened by the
number of bytes available; the short arms are the truncation cases, in which
Go consumes one byte and restarts at the next. -/
def goDecode : List Nat → List Nat
  | [] => []
  | [b0] => if b0 < 0x80 then [b0] else [0xFFFD]
  | [b0, b1] =>
    if b0 < 0x80 then b0 :: goDecode [b1]
    else if b0 < 0xC2 ∨ 0xF4 < b0 then 0xFFFD :: goDecode [b1]
    else if b0 < 0xE0 then
      if contByte b1 then [(b0 - 0xC0) * 0x40 + (b1 - 0x80)]
      else 0xFFFD :: goDecode [b1]
    else 0xFFFD :: goDecode [b1]
  | [b0, b1, b2] =>
    if b0 < 0x80 then b0 :: goDecode [b1, b2]
    else if b0 < 0xC2 ∨ 0xF4 < b0 then 0xFFFD :: goDecode [b1, b2]
    else if b0 < 0xE0 then
      if contByte b1 then ((b0 - 0xC0) * 0x40 + (b1 - 0x80)) :: goDecode [b2]
      else 0xFFFD :: goDecode [b1, b2]
    else if b0 < 0xF0 then
      if accept3 b0 b1 && contByte b2 then
        [(b0 - 0xE0) * 0x1000 + (b1 - 0x80) * 0x40 + (b2 - 0x80)]
      else 0xFFFD :: goDecode [b1, b2]
    else 0xFFFD :: goDecode [b1, b2]
  | b0 :: b1 :: b2 :: b3 :: rest =>
    if b0 < 0x80 then b0 :: goDecode (b1 :: b2 :: b3 :: rest)
    else if b0 < 0xC2 ∨ 0xF4 < b0 then 0xFFFD :: goDecode (b1 :: b2 :: b3 :: rest)
    else if b0 < 0xE0 then
      if contByte b1 then
        ((b0 - 0xC0) * 0x40 + (b1 - 0x80)) :: goDecode (b2 :: b3 :: rest)
      else 0xFFFD :: goDecode (b1 :: b2 :: b3 :: rest)
    else if b0 < 0xF0 then
      if accept3 b0 b1 && contByte b2 then
        ((b0 - 0xE0) * 0x1000 + (b1 - 0x80) * 0x40 + (b2 - 0x80)) ::
          goDecode (b3 :: rest)
      else 0xFFFD :: goDecode (b1 :: b2 :: b3 :: rest)
    else
      if accept4 b0 b1 && contByte b2 && contByte b3 then
        ((b0 - 0xF0) * 0x40000 + (b1 - 0x80) * 0x1000 +
          (b2 - 0x80) * 0x40 + (b3 - 0x80)) :: goDecode rest
      else 0xFFFD :: goDecode (b1 :: b2 :: b3 :: rest)

/-- A byte list is (Go-)roundtrip-clean when decoding and re-encoding it
reproduces it exactly; this holds exactly for valid UTF-8 input. -/
def GoRoundtrip (bs : List Nat) : Prop := encodeRunes (goDecode bs) = bs

instance (bs : List Nat) : Decidable (GoRoundtrip bs) :=
  inferInstanceAs (Decidable (_ = _))

/-- Is the codepoint an ASCII letter (`A`-`Z` or `a`-`z`)?  Source:
`(c >= 0x41 && c <= 0x5a) || (c >= 0x61 && c <= 0x7a)`. -/
def isLetterRune (c : Nat) : Bool :=
  (0x41 ≤ c && c ≤ 0x5A) || (0x61 ≤ c && c ≤ 0x7A)

/-- The bytes of the ANSI style-reset sequence `"\x1b[0m"`. -/
def resetSeqBytes : List Nat := [0x1B, 0x5B, 0x30, 0x6D]

/-- Modelled from the spec: the state of the escape-aware pass-through sink
(the `ansi.Writer` of the reflow repository, not under `src/`): it forwards
every byte it receives and tracks whether a styling escape sequence is
currently open and whether styling is active, so that `ResetAnsi` can emit a
style reset at line boundaries (spec sections 2, 4.1 and 6). -/
structure AnsiState where
  inSeq : Bool
  seq : List Nat
  styleActive : Bool
deriving Repr, DecidableEq

/-- Initial sink state: outside any escape sequence, no active styling. -/
def initAnsi : AnsiState := ⟨false, [], false⟩

/-- Modelled from the spec: per-byte state update of the escape-aware sink.
An escape introducer opens a sequence and marks styling active; a terminating
ASCII letter closes it, and a sequence equal to the style reset `"\x1b[0m"`
clears the active-styling flag (spec section 6: "reset any active styling
state"). -/
def ansiStep (st : AnsiState) (c : Nat) : AnsiState :=
  if c = 0x1B then { st with inSeq := true, seq := [0x1B], styleActive := true }
  else if st.inSeq then
    if isLetterRune c then
      { inSeq := false, seq := [],
        styleActive := if st.seq ++ [c] = resetSeqBytes then false else st.styleActive }
    else { st with seq := st.seq ++ [c] }
  else st

/-- The padding writer of `padding.go` that owns its output buffer
(`NewWriter` flavor: the `ansi.Writer`'s forward target is the internal
`buf`, a `bytes.Buffer`, whose writes never fail).  `PadFunc` models the
optional `PaddingFunc` as the bytes one invocation writes into the sink. -/
structure Writer where
  Padding : Nat
  PadFunc : Option (List Nat)
  buf : List Nat
  cache : List Nat
  lineLen : Nat
  ansi : Bool
  ast : AnsiState
deriving Repr, DecidableEq

/-- `NewWriter`: fresh writer with the given target width and filler policy. -/
def NewWriter (width : Nat) (paddingFunc : Option (List Nat)) : Writer :=
  { Padding := width, PadFunc := paddingFunc, buf := [], cache := [],
    lineLen := 0, ansi := false, ast := initAnsi }

/-- A write through the wrapped `ansi.Writer`: the bytes are appended to the
internal buffer and the sink's escape-tracking state is updated. -/
def Writer.awWrite (w : Writer) (bs : List Nat) : Writer :=
  { w with buf := w.buf ++ bs, ast := bs.foldl ansiStep w.ast }

/-- Modelled from the spec: `ansiWriter.ResetAnsi()` — if styling is active,
emit the style-reset sequence directly to the forward target (bypassing the
sink's own escape tracking) and clear the active-styling flag; otherwise do
nothing. -/
def Writer.resetAnsi (w : Writer) : Writer :=
  if w.ast.styleActive then
    { w with buf := w.buf ++ resetSeqBytes,
             ast := { w.ast with styleActive := false } }
  else w

/-- `pad`: if the target width is positive and the current visible line
length falls short of it, emit one filler unit per missing column — the
custom `PadFunc` if set, else that many literal spaces in one write. -/
def Writer.pad (w : Writer) : Writer :=
  if 0 < w.Padding ∧ w.lineLen < w.Padding then
    match w.PadFunc with
    | some pf => (List.range (w.Padding - w.lineLen)).foldl (fun acc _ => acc.awWrite pf) w
    | none => w.awWrite (List.replicate (w.Padding - w.lineLen) 0x20)
  else w

/-- `writeRune`: re-encode the codepoint and forward its bytes to the sink. -/
def Writer.writeRune (w : Writer) (r : Nat) : Writer :=
  w.awWrite (encodeRune r)

/-- One iteration of `Write`'s loop body for codepoint `c`: classify it as
escape introducer / escape continuation / plain content, update `lineLen`,
run the line-fill step at a line feed, and unconditionally forward the
re-encoded codepoint. -/
def Writer.writeStep (w : Writer) (c : Nat) : Writer :=
  if c = 0x1B then ({ w with ansi := true }).writeRune c
  else if w.ansi then
    (if isLetterRune c then { w with ansi := false } else w).writeRune c
  else
    let w1 := { w with lineLen := w.lineLen + runeWidth c }
    let w2 := if c = 10 then { w1.pad.resetAnsi with lineLen := 0 } else w1
    w2.writeRune c

/-- `Write`'s loop over the decoded codepoints. -/
def Writer.writeRunes (w : Writer) : List Nat → Writer
  | [] => w
  | c :: cs => (w.writeStep c).writeRunes cs

/-- `Write`: iterate over the input bytes as UTF-8 codepoints (Go
`for _, c := range string(b)`) and return the input length as the byte
count.  The buffer sink never fails, so no error case arises. -/
def Writer.Write (w : Writer) (b : List Nat) : Writer × Nat :=
  (w.writeRunes (goDecode b), b.length)

/-- `Flush`: pad a pending non-empty line, then move the accumulated buffer
into the result cache and reset the transient state. -/
def Writer.Flush (w : Writer) : Writer :=
  let w1 := if w.lineLen ≠ 0 then w.pad else w
  { w1 with cache := w1.buf, buf := [], lineLen := 0, ansi := false }

/-- `Close` is a passthrough alias for `Flush`. -/
def Writer.Close (w : Writer) : Writer := w.Flush

/-- `Bytes` accessor: the finalized result cache. -/
def Writer.Bytes (w : Writer) : List Nat := w.cache

/-- `String` accessor: the finalized result cache as text (byte-identical). -/
def Writer.String (w : Writer) : List Nat := w.cache

/-- Package-level `Bytes`: one-shot padding of a byte slice with the default
filler.  The source acquires a writer from a pool; per spec section 9 the pool
is behaviorally invisible, so acquisition is modelled as a fresh writer. -/
def Bytes (b : List Nat) (width : Nat) : List Nat :=
  let f := NewWriter width none
  let f := (f.Write b).1
  let f := if f.lineLen ≠ 0 then f.pad else f
  f.buf

/-- Package-level `String`: one-shot padding of a string (byte-identical to
`Bytes` on the string's bytes). -/
def String (s : List Nat) (width : Nat) : List Nat := Bytes s width

/-- An `io.Writer` sink for the pipe flavor: accepts a byte sequence and
either succeeds with its new state or rejects the write with an error.
(The byte count an `io.Writer` returns is ignored by the source.) -/
def PSink (σ : Type) := σ → List Nat → Except Unit σ

/-- The padding writer of `NewWriterPipe`: identical to `Writer` but its
`ansi.Writer` forwards to a caller-supplied sink whose writes can fail.
No result cache exists in this flavor (`Flush` only drains the internal
buffer, which this flavor does not use). -/
structure PWriter (σ : Type) where
  Padding : Nat
  PadFunc : Option (List Nat)
  fwd : σ
  lineLen : Nat
  ansi : Bool
  ast : AnsiState
deriving Repr, DecidableEq

/-- `NewWriterPipe`: fresh pipe writer over the given sink state. -/
def NewWriterPipe (forward : σ) (width : Nat) (paddingFunc : Option (List Nat)) :
    PWriter σ :=
  { Padding := width, PadFunc := paddingFunc, fwd := forward,
    lineLen := 0, ansi := false, ast := initAnsi }

/-- A write through the wrapped `ansi.Writer` in the pipe flavor: forward the
bytes to the sink, propagating its error; on success update the
escape-tracking state. -/
def PWriter.awWrite (snk : PSink σ) (w : PWriter σ) (bs : List Nat) :
    Except Unit (PWriter σ) :=
  match snk w.fwd bs with
  | .error e => .error e
  | .ok s => .ok { w with fwd := s, ast := bs.foldl ansiStep w.ast }

/-- Modelled from the spec: `ResetAnsi` in the pipe flavor.  The source
discards the sink's error (`_, _ = w.Forward.Write(...)`), so a rejected
reset write is ignored. -/
def PWriter.resetAnsi (snk : PSink σ) (w : PWriter σ) : PWriter σ :=
  if w.ast.styleActive then
    match snk w.fwd resetSeqBytes with
    | .error _ => { w with ast := { w.ast with styleActive := false } }
    | .ok s => { w with fwd := s, ast := { w.ast with styleActive := false } }
  else w

/-- The custom-filler loop of `pad`: invoke the `PaddingFunc` once per
missing column.  `PaddingFunc` has no error channel (`func(w io.Writer)`),
so a sink rejection inside an invocation is silently dropped. -/
def padFuncLoop (snk : PSink σ) (pf : List Nat) : PWriter σ → Nat → PWriter σ
  | w, 0 => w
  | w, n + 1 =>
    let w1 := match snk w.fwd pf with
      | .error _ => w
      | .ok s => { w with fwd := s, ast := pf.foldl ansiStep w.ast }
    padFuncLoop snk pf w1 n

/-- `pad` in the pipe flavor: the default-space branch propagates the sink's
error; the custom-filler branch cannot (see `padFuncLoop`). -/
def PWriter.pad (snk : PSink σ) (w : PWriter σ) : Except Unit (PWriter σ) :=
  if 0 < w.Padding ∧ w.lineLen < w.Padding then
    match w.PadFunc with
    | some pf => .ok (padFuncLoop snk pf w (w.Padding - w.lineLen))
    | none => w.awWrite snk (List.replicate (w.Padding - w.lineLen) 0x20)
  else .ok w

/-- `writeRune` in the pipe flavor. -/
def PWriter.writeRune (snk : PSink σ) (w : PWriter σ) (r : Nat) :
    Except Unit (PWriter σ) :=
  w.awWrite snk (encodeRune r)

/-- One iteration of `Write`'s loop body in the pipe flavor; a failing `pad`
or `writeRune` aborts the loop with the sink's error. -/
def PWriter.writeStep (snk : PSink σ) (w : PWriter σ) (c : Nat) :
    Except Unit (PWriter σ) :=
  if c = 0x1B then ({ w with ansi := true }).writeRune snk c
  else if w.ansi then
    (if isLetterRune c then { w with ansi := false } else w).writeRune snk c
  else
    let w1 := { w with lineLen := w.lineLen + runeWidth c }
    if c = 10 then
      match w1.pad snk with
      | .error e => .error e
      | .ok w2 => ({ w2.resetAnsi snk with lineLen := 0 }).writeRune snk c
    else w1.writeRune snk c

/-- `Write`'s loop over the decoded codepoints, pipe flavor. -/
def PWriter.writeRunes (snk : PSink σ) (w : PWriter σ) :
    List Nat → Except Unit (PWriter σ)
  | [] => .ok w
  | c :: cs =>
    match w.writeStep snk c with
    | .error e => .error e
    | .ok w1 => w1.writeRunes snk cs

/-- `Write`, pipe flavor: on success the returned count is the input
length; the first sink error aborts the call and is returned. -/
def PWriter.Write (snk : PSink σ) (w : PWriter σ) (b : List Nat) :
    Except Unit (PWriter σ × Nat) :=
  match w.writeRunes snk (goDecode b) with
  | .error e => .error e
  | .ok w1 => .ok (w1, b.length)

/-- A sink that appends to a byte list and never fails (like `bytes.Buffer`). -/
def listSink : PSink (List Nat) := fun s bs => .ok (s ++ bs)

/-- A sink that rejects every write. -/
def failSink : PSink (List Nat) := fun _ _ => .error ()

/-- A sink that rejects exactly the writes containing the byte `0x2A`
(`*`) and accepts everything else. -/
def noStarSink : PSink (List Nat) := fun s bs =>
  if 0x2A ∈ bs then .error () else .ok (s ++ bs)

/-! ### Specification-side measurement functions

These restate, independently of the writer's state machine, which codepoints
of a stream are printable content and what their total display width is. -/

/-- The total display width of a codepoint sequence. -/
def visibleWidth (cs : List Nat) : Nat := (cs.map runeWidth).sum

/-- The printable codepoints of a stream: those not belonging to an escape
sequence (introducer, intermediate bytes and terminating letter excluded),
starting from the given in-sequence flag. -/
def stripEscapes : Bool → List Nat → List Nat
  | _, [] => []
  | inE, c :: cs =>
    if c = 0x1B then stripEscapes true cs
    else if inE then
      if isLetterRune c then stripEscapes false cs else stripEscapes true cs
    else c :: stripEscapes false cs

/-- Whether the stream ends inside an (unterminated) escape sequence,
starting from the given in-sequence flag. -/
def inSeqAfter : Bool → List Nat → Bool
  | a, [] => a
  | a, c :: cs =>
    if c = 0x1B then inSeqAfter true cs
    else if a then
      if isLetterRune c then inSeqAfter false cs else inSeqAfter true cs
    else inSeqAfter false cs

/-! ### Basic lemmas about the byte layer -/

theorem encodeRune_ascii {c : Nat} (h : c < 0x80) : encodeRune c = [c] := by
  simp [encodeRune, h]

theorem esc_not_mem_encodeRune {c : Nat} (h : c ≠ 0x1B) : 0x1B ∉ encodeRune c := by
  unfold encodeRune
  split
  · simp; omega
  · split
    · simp; omega
    · split
      · simp
      · split
        · simp; omega
        · split
          · simp; omega
          · simp

theorem esc_not_mem_encodeRunes {rs : List Nat} (h : 0x1B ∉ rs) :
    0x1B ∉ encodeRunes rs := by
  induction rs with
  | nil => simp [encodeRunes]
  | cons r rs ih =>
    simp only [List.mem_cons, not_or] at h
    simp only [encodeRunes, List.mem_append]
    push_neg
    exact ⟨esc_not_mem_encodeRune (by omega), ih h.2⟩

theorem ansiStep_skip {st : AnsiState} {b : Nat} (h1 : st.inSeq = false)
    (h2 : b ≠ 0x1B) : ansiStep st b = st := by
  simp [ansiStep, h1, h2]

theorem foldl_ansiStep_skip {bs : List Nat} {st : AnsiState}
    (h1 : st.inSeq = false) (h2 : 0x1B ∉ bs) : bs.foldl ansiStep st = st := by
  induction bs with
  | nil => rfl
  | cons b bs ih =>
    simp only [List.mem_cons, not_or] at h2
    rw [List.foldl_cons, ansiStep_skip h1 (Ne.symm h2.1)]
    exact ih h2.2

theorem awWrite_nil (w : Writer) : w.awWrite [] = w := by
  simp [Writer.awWrite]

theorem awWrite_append (w : Writer) (bs1 bs2 : List Nat) :
    w.awWrite (bs1 ++ bs2) = (w.awWrite bs1).awWrite bs2 := by
  simp [Writer.awWrite, List.foldl_append]

/-- With the default filler, `pad` always amounts to appending
`Padding - lineLen` spaces (that count is `0` exactly when no padding is
due, and a write of `[]` is a no-op). -/
theorem pad_default {w : Writer} (h : w.PadFunc = none) :
    w.pad = w.awWrite (List.replicate (w.Padding - w.lineLen) 0x20) := by
  unfold Writer.pad
  split
  · rw [h]
  · have : w.Padding - w.lineLen = 0 := by omega
    rw [this, List.replicate_zero, awWrite_nil]

theorem visibleWidth_nil : visibleWidth [] = 0 := rfl

theorem visibleWidth_cons (c : Nat) (cs : List Nat) :
    visibleWidth (c :: cs) = runeWidth c + visibleWidth cs := by
  simp [visibleWidth]

theorem visibleWidth_append (cs1 cs2 : List Nat) :
    visibleWidth (cs1 ++ cs2) = visibleWidth cs1 + visibleWidth cs2 := by
  simp [visibleWidth]

theorem visibleWidth_replicate_space (n : Nat) :
    visibleWidth (List.replicate n 0x20) = n := by
  induction n with
  | zero => rfl
  | succ n ih =>
    rw [List.replicate_succ, visibleWidth_cons, ih]
    have h32 : runeWidth 0x20 = 1 := by decide
    omega

theorem stripEscapes_no_esc {cs : List Nat} (h : 0x1B ∉ cs) :
    stripEscapes false cs = cs := by
  induction cs with
  | nil => rfl
  | cons c cs ih =>
    simp only [List.mem_cons, not_or] at h
    simp [stripEscapes, Ne.symm h.1, ih h.2]

theorem inSeqAfter_no_esc {cs : List Nat} (h : 0x1B ∉ cs) :
    inSeqAfter false cs = false := by
  induction cs with
  | nil => rfl
  | cons c cs ih =>
    simp only [List.mem_cons, not_or] at h
    simp [inSeqAfter, Ne.symm h.1, ih h.2]

theorem writeRunes_append (w : Writer) (cs1 cs2 : List Nat) :
    w.writeRunes (cs1 ++ cs2) = (w.writeRunes cs1).writeRunes cs2 := by
  induction cs1 generalizing w with
  | nil => rfl
  | cons c cs ih => simp [Writer.writeRunes, ih]

/-- Master characterization of `Write`'s loop on a segment containing no
line feed: every codepoint's bytes are forwarded in order, the visible line
length grows by the total display width of exactly the printable codepoints,
and the in-escape flag evolves as the two-state machine prescribes. -/
theorem writeRunes_no_newline (cs : List Nat) : ∀ w : Writer, 10 ∉ cs →
    w.writeRunes cs =
      { w with buf := w.buf ++ encodeRunes cs,
               lineLen := w.lineLen + visibleWidth (stripEscapes w.ansi cs),
               ansi := inSeqAfter w.ansi cs,
               ast := (encodeRunes cs).foldl ansiStep w.ast } := by
  induction cs with
  | nil =>
    intro w _
    simp [Writer.writeRunes, encodeRunes, stripEscapes, inSeqAfter, visibleWidth]
  | cons c cs ih =>
    intro w h
    simp only [List.mem_cons, not_or] at h
    have hten : c ≠ 10 := Ne.symm h.1
    rw [show w.writeRunes (c :: cs) = (w.writeStep c).writeRunes cs from rfl,
        ih _ h.2]
    by_cases hc : c = 0x1B
    · subst hc
      have hs : w.writeStep 0x1B =
          { w with ansi := true, buf := w.buf ++ [0x1B],
                   ast := ansiStep w.ast 0x1B } := by
        simp [Writer.writeStep, Writer.writeRune, Writer.awWrite,
              encodeRune_ascii (by norm_num : (0x1B : Nat) < 0x80)]
      rw [hs]
      simp [encodeRunes, stripEscapes, inSeqAfter,
            encodeRune_ascii (by norm_num : (0x1B : Nat) < 0x80),
            List.append_assoc]
    · by_cases ha : w.ansi
      · have hs : w.writeStep c =
            { w with ansi := !isLetterRune c, buf := w.buf ++ encodeRune c,
                     ast := (encodeRune c).foldl ansiStep w.ast } := by
          by_cases hl : isLetterRune c <;>
            simp [Writer.writeStep, Writer.writeRune, Writer.awWrite, hc, ha, hl]
        rw [hs]
        by_cases hl : isLetterRune c <;>
          simp [encodeRunes, stripEscapes, inSeqAfter, hc, ha, hl,
                List.append_assoc, List.foldl_append]
      · have hs : w.writeStep c =
            { w with lineLen := w.lineLen + runeWidth c,
                     buf := w.buf ++ encodeRune c,
                     ast := (encodeRune c).foldl ansiStep w.ast } := by
          simp [Writer.writeStep, Writer.writeRune, Writer.awWrite, hc, ha, hten]
        rw [hs]
        simp only [Bool.not_eq_true] at ha
        simp [encodeRunes, stripEscapes, inSeqAfter, hc, ha, visibleWidth_cons,
              List.append_assoc, List.foldl_append, Nat.add_assoc]

/-! ### Decode-step lemmas: one lemma per byte-length case of `goDecode` -/

theorem goDecode_ascii {b0 : Nat} (h : b0 < 0x80) (rest : List Nat) :
    goDecode (b0 :: rest) = b0 :: goDecode rest := by
  match rest with
  | [] => rw [goDecode.eq_def]; simp [h, goDecode]
  | [x] => rw [goDecode.eq_def]; simp [h]
  | [x, y] => rw [goDecode.eq_def]; simp [h]
  | x :: y :: z :: rs => rw [goDecode.eq_def]; simp [h]

theorem goDecode_invalid1 {b0 : Nat} (h : 0x80 ≤ b0)
    (h2 : b0 < 0xC2 ∨ 0xF4 < b0) (rest : List Nat) :
    goDecode (b0 :: rest) = 0xFFFD :: goDecode rest := by
  match rest with
  | [] =>
    rw [goDecode.eq_def]
    simp only []
    rw [if_neg (by omega)]
    rfl
  | [x] =>
    rw [goDecode.eq_def]
    simp only []
    rw [if_neg (by omega), if_pos h2]
  | [x, y] =>
    rw [goDecode.eq_def]
    simp only []
    rw [if_neg (by omega), if_pos h2]
  | x :: y :: z :: rs =>
    rw [goDecode.eq_def]
    simp only []
    rw [if_neg (by omega), if_pos h2]

theorem goDecode_cons2 {b0 b1 : Nat} (h0 : 0xC2 ≤ b0) (h0e : b0 < 0xE0)
    (h1 : contByte b1 = true) (rest : List Nat) :
    goDecode (b0 :: b1 :: rest) =
      ((b0 - 0xC0) * 0x40 + (b1 - 0x80)) :: goDecode rest := by
  match rest with
  | [] =>
    rw [goDecode.eq_def]
    simp only []
    rw [if_neg (by omega), if_neg (by omega), if_pos (by omega), if_pos h1]
    rfl
  | [x] =>
    rw [goDecode.eq_def]
    simp only []
    rw [if_neg (by omega), if_neg (by omega), if_pos (by omega), if_pos h1]
  | x :: y :: rs =>
    rw [goDecode.eq_def]
    simp only []
    rw [if_neg (by omega), if_neg (by omega), if_pos (by omega), if_pos h1]

theorem goDecode_cons3 {b0 b1 b2 : Nat} (h0 : 0xE0 ≤ b0) (h0e : b0 < 0xF0)
    (h1 : accept3 b0 b1 = true) (h2 : contByte b2 = true) (rest : List Nat) :
    goDecode (b0 :: b1 :: b2 :: rest) =
      ((b0 - 0xE0) * 0x1000 + (b1 - 0x80) * 0x40 + (b2 - 0x80)) ::
        goDecode rest := by
  match rest with
  | [] =>
    rw [goDecode.eq_def]
    simp only []
    rw [if_neg (by omega), if_neg (by omega), if_neg (by omega),
        if_pos (by omega), if_pos (by simp [h1, h2])]
    rfl
  | x :: rs =>
    rw [goDecode.eq_def]
    simp only []
    rw [if_neg (by omega), if_neg (by omega), if_neg (by omega),
        if_pos (by omega), if_pos (by simp [h1, h2])]

theorem goDecode_cons4 {b0 b1 b2 b3 : Nat} (h0 : 0xF0 ≤ b0) (h0e : b0 ≤ 0xF4)
    (h1 : accept4 b0 b1 = true) (h2 : contByte b2 = true)
    (h3 : contByte b3 = true) (rest : List Nat) :
    goDecode (b0 :: b1 :: b2 :: b3 :: rest) =
      ((b0 - 0xF0) * 0x40000 + (b1 - 0x80) * 0x1000 +
        (b2 - 0x80) * 0x40 + (b3 - 0x80)) :: goDecode rest := by
  rw [goDecode.eq_def]
  simp only []
  rw [if_neg (by omega), if_neg (by omega), if_neg (by omega),
      if_neg (by omega), if_pos (by simp [h1, h2, h3])]

/-! ### The encode-then-decode roundtrip -/

/-- Decoding the encoding of a Unicode scalar value, followed by anything,
recovers the scalar value and continues with the remainder. -/
theorem goDecode_encodeRune_append {r : Nat} (h : ValidRune r)
    (rest : List Nat) :
    goDecode (encodeRune r ++ rest) = r :: goDecode rest := by
  rcases h with h | h
  case inl =>
    rcases Nat.lt_or_ge r 0x80 with h1 | h1
    · rw [encodeRune_ascii h1, List.cons_append, List.nil_append,
          goDecode_ascii h1]
    rcases Nat.lt_or_ge r 0x800 with h2 | h2
    · have e : encodeRune r = [0xC0 + r / 0x40, 0x80 + r % 0x40] := by
        unfold encodeRune
        rw [if_neg (by omega), if_pos h2]
      rw [e]
      show goDecode ((0xC0 + r / 0x40) :: (0x80 + r % 0x40) :: rest) = _
      rw [goDecode_cons2 (by omega) (by omega)
            (by simp only [contByte, Bool.and_eq_true, decide_eq_true_eq]; omega)]
      simp only [List.cons.injEq]
      exact ⟨by omega, trivial⟩
    · have e : encodeRune r =
          [0xE0 + r / 0x1000, 0x80 + (r / 0x40) % 0x40, 0x80 + r % 0x40] := by
        unfold encodeRune
        rw [if_neg (by omega), if_neg (by omega), if_neg (by omega),
            if_pos (by omega)]
      rw [e]
      show goDecode ((0xE0 + r / 0x1000) :: (0x80 + (r / 0x40) % 0x40) ::
        (0x80 + r % 0x40) :: rest) = _
      rw [goDecode_cons3 (by omega) (by omega) ?acc
            (by simp only [contByte, Bool.and_eq_true, decide_eq_true_eq]; omega)]
      · simp only [List.cons.injEq]
        exact ⟨by omega, trivial⟩
      case acc =>
        unfold accept3
        split
        · rename_i hE0
          simp only [Bool.and_eq_true, decide_eq_true_eq]
          omega
        · split
          · rename_i hne hED
            simp only [Bool.and_eq_true, decide_eq_true_eq]
            omega
          · simp only [contByte, Bool.and_eq_true, decide_eq_true_eq]
            omega
  case inr =>
    rcases Nat.lt_or_ge r 0x10000 with h2 | h2
    · have e : encodeRune r =
          [0xE0 + r / 0x1000, 0x80 + (r / 0x40) % 0x40, 0x80 + r % 0x40] := by
        unfold encodeRune
        rw [if_neg (by omega), if_neg (by omega), if_neg (by omega),
            if_pos (by omega)]
      rw [e]
      show goDecode ((0xE0 + r / 0x1000) :: (0x80 + (r / 0x40) % 0x40) ::
        (0x80 + r % 0x40) :: rest) = _
      rw [goDecode_cons3 (by omega) (by omega) ?acc2
            (by simp only [contByte, Bool.and_eq_true, decide_eq_true_eq]; omega)]
      · simp only [List.cons.injEq]
        exact ⟨by omega, trivial⟩
      case acc2 =>
        unfold accept3
        split
        · rename_i hE0
          simp only [Bool.and_eq_true, decide_eq_true_eq]
          omega
        · split
          · rename_i hne hED
            simp only [Bool.and_eq_true, decide_eq_true_eq]
            omega
          · simp only [contByte, Bool.and_eq_true, decide_eq_true_eq]
            omega
    · have e : encodeRune r =
          [0xF0 + r / 0x40000, 0x80 + (r / 0x1000) % 0x40,
           0x80 + (r / 0x40) % 0x40, 0x80 + r % 0x40] := by
        unfold encodeRune
        rw [if_neg (by omega), if_neg (by omega), if_neg (by omega),
            if_neg (by omega), if_pos (by omega)]
      rw [e]
      show goDecode ((0xF0 + r / 0x40000) :: (0x80 + (r / 0x1000) % 0x40) ::
        (0x80 + (r / 0x40) % 0x40) :: (0x80 + r % 0x40) :: rest) = _
      rw [goDecode_cons4 (by omega) (by omega) ?acc3
            (by simp only [contByte, Bool.and_eq_true, decide_eq_true_eq]; omega)
            (by simp only [contByte, Bool.and_eq_true, decide_eq_true_eq]; omega)]
      · simp only [List.cons.injEq]
        exact ⟨by omega, trivial⟩
      case acc3 =>
        unfold accept4
        split
        · rename_i hF0
          simp only [Bool.and_eq_true, decide_eq_true_eq]
          omega
        · split
          · rename_i hne hF4
            simp only [Bool.and_eq_true, decide_eq_true_eq]
            omega
          · simp only [contByte, Bool.and_eq_true, decide_eq_true_eq]
            omega

/-- Decoding the encoding of a list of Unicode scalar values, followed by
anything, recovers the scalar values. -/
theorem goDecode_encodeRunes_append {rs : List Nat}
    (h : ∀ c ∈ rs, ValidRune c) (rest : List Nat) :
    goDecode (encodeRunes rs ++ rest) = rs ++ goDecode rest := by
  induction rs with
  | nil => simp [encodeRunes]
  | cons r rs ih =>
    rw [encodeRunes, List.append_assoc,
        goDecode_encodeRune_append (h r (by simp)), ih (fun c hc => h c (by simp [hc]))]
    rfl

/-- Decoding the encoding of a list of Unicode scalar values recovers it. -/
theorem goDecode_encodeRunes {rs : List Nat} (h : ∀ c ∈ rs, ValidRune c) :
    goDecode (encodeRunes rs) = rs := by
  have := goDecode_encodeRunes_append h []
  simpa [goDecode] using this


theorem validRune_FFFD : ValidRune 0xFFFD := by decide

theorem forall_mem_cons_valid {a : Nat} {l : List Nat} (h1 : ValidRune a)
    (h2 : ∀ c ∈ l, ValidRune c) : ∀ c ∈ a :: l, ValidRune c := by
  intro c hc
  rcases List.mem_cons.mp hc with h | h
  · exact h ▸ h1
  · exact h2 c h

theorem validRune_goDecode : ∀ (bs : List Nat), ∀ c ∈ goDecode bs, ValidRune c := by
  intro bs
  induction bs using goDecode.induct with
  | case1 => simp [goDecode]
  | case2 b0 h =>
    rw [goDecode.eq_def]; simp only []; rw [if_pos h]
    exact forall_mem_cons_valid (by unfold ValidRune; omega) (by simp)
  | case3 b0 h =>
    rw [goDecode.eq_def]; simp only []; rw [if_neg h]
    exact forall_mem_cons_valid validRune_FFFD (by simp)
  | case4 b0 b1 h ih =>
    rw [goDecode_ascii h]
    exact forall_mem_cons_valid (by unfold ValidRune; omega) ih
  | case5 b0 b1 h1 h2 ih =>
    rw [goDecode_invalid1 (by omega) h2]
    exact forall_mem_cons_valid validRune_FFFD ih
  | case6 b0 b1 h1 h2 h3 h4 =>
    rw [goDecode_cons2 (by omega) h3 h4]
    simp only [contByte, Bool.and_eq_true, decide_eq_true_eq] at h4
    exact forall_mem_cons_valid (by unfold ValidRune; omega) (by simp [goDecode])
  | case7 b0 b1 h1 h2 h3 h4 ih =>
    rw [goDecode.eq_def]; simp only []
    rw [if_neg h1, if_neg h2, if_pos h3, if_neg h4]
    exact forall_mem_cons_valid validRune_FFFD ih
  | case8 b0 b1 h1 h2 h3 ih =>
    rw [goDecode.eq_def]; simp only []
    rw [if_neg h1, if_neg h2, if_neg h3]
    exact forall_mem_cons_valid validRune_FFFD ih
  | case9 b0 b1 b2 h ih =>
    rw [goDecode_ascii h]
    exact forall_mem_cons_valid (by unfold ValidRune; omega) ih
  | case10 b0 b1 b2 h1 h2 ih =>
    rw [goDecode_invalid1 (by omega) h2]
    exact forall_mem_cons_valid validRune_FFFD ih
  | case11 b0 b1 b2 h1 h2 h3 h4 ih =>
    rw [goDecode_cons2 (by omega) h3 h4]
    simp only [contByte, Bool.and_eq_true, decide_eq_true_eq] at h4
    exact forall_mem_cons_valid (by unfold ValidRune; omega) ih
  | case12 b0 b1 b2 h1 h2 h3 h4 ih =>
    rw [goDecode.eq_def]; simp only []
    rw [if_neg h1, if_neg h2, if_pos h3, if_neg h4]
    exact forall_mem_cons_valid validRune_FFFD ih
  | case13 b0 b1 b2 h1 h2 h3 h4 h5 =>
    simp only [Bool.and_eq_true] at h5
    rw [goDecode_cons3 (by omega) h4 h5.1 h5.2]
    have hv : ValidRune ((b0 - 0xE0) * 0x1000 + (b1 - 0x80) * 0x40 + (b2 - 0x80)) := by
      have hc2 := h5.2
      simp only [contByte, Bool.and_eq_true, decide_eq_true_eq] at hc2
      have ha := h5.1
      unfold accept3 at ha
      split at ha
      · rename_i hE0
        simp only [Bool.and_eq_true, decide_eq_true_eq] at ha
        unfold ValidRune; omega
      · split at ha
        · rename_i hne hED
          simp only [Bool.and_eq_true, decide_eq_true_eq] at ha
          unfold ValidRune; omega
        · rename_i hne hned
          simp only [contByte, Bool.and_eq_true, decide_eq_true_eq] at ha
          unfold ValidRune; omega
    exact forall_mem_cons_valid hv (by simp [goDecode])
  | case14 b0 b1 b2 h1 h2 h3 h4 h5 ih =>
    rw [goDecode.eq_def]; simp only []
    rw [if_neg h1, if_neg h2, if_neg h3, if_pos h4, if_neg h5]
    exact forall_mem_cons_valid validRune_FFFD ih
  | case15 b0 b1 b2 h1 h2 h3 h4 ih =>
    rw [goDecode.eq_def]; simp only []
    rw [if_neg h1, if_neg h2, if_neg h3, if_neg h4]
    exact forall_mem_cons_valid validRune_FFFD ih
  | case16 b0 b1 b2 b3 rest h ih =>
    rw [goDecode_ascii h]
    exact forall_mem_cons_valid (by unfold ValidRune; omega) ih
  | case17 b0 b1 b2 b3 rest h1 h2 ih =>
    rw [goDecode_invalid1 (by omega) h2]
    exact forall_mem_cons_valid validRune_FFFD ih
  | case18 b0 b1 b2 b3 rest h1 h2 h3 h4 ih =>
    rw [goDecode_cons2 (by omega) h3 h4]
    simp only [contByte, Bool.and_eq_true, decide_eq_true_eq] at h4
    exact forall_mem_cons_valid (by unfold ValidRune; omega) ih
  | case19 b0 b1 b2 b3 rest h1 h2 h3 h4 ih =>
    rw [goDecode.eq_def]; simp only []
    rw [if_neg h1, if_neg h2, if_pos h3, if_neg h4]
    exact forall_mem_cons_valid validRune_FFFD ih
  | case20 b0 b1 b2 b3 rest h1 h2 h3 h4 h5 ih =>
    simp only [Bool.and_eq_true] at h5
    rw [goDecode_cons3 (by omega) h4 h5.1 h5.2]
    have hv : ValidRune ((b0 - 0xE0) * 0x1000 + (b1 - 0x80) * 0x40 + (b2 - 0x80)) := by
      have hc2 := h5.2
      simp only [contByte, Bool.and_eq_true, decide_eq_true_eq] at hc2
      have ha := h5.1
      unfold accept3 at ha
      split at ha
      · rename_i hE0
        simp only [Bool.and_eq_true, decide_eq_true_eq] at ha
        unfold ValidRune; omega
      · split at ha
        · rename_i hne hED
          simp only [Bool.and_eq_true, decide_eq_true_eq] at ha
          unfold ValidRune; omega
        · rename_i hne hned
          simp only [contByte, Bool.and_eq_true, decide_eq_true_eq] at ha
          unfold ValidRune; omega
    exact forall_mem_cons_valid hv ih
  | case21 b0 b1 b2 b3 rest h1 h2 h3 h4 h5 ih =>
    rw [goDecode.eq_def]; simp only []
    rw [if_neg h1, if_neg h2, if_neg h3, if_pos h4, if_neg h5]
    exact forall_mem_cons_valid validRune_FFFD ih
  | case22 b0 b1 b2 b3 rest h1 h2 h3 h4 h5 ih =>
    simp only [Bool.and_eq_true] at h5
    rw [goDecode_cons4 (by omega) (by omega) h5.1.1 h5.1.2 h5.2]
    have hv : ValidRune ((b0 - 0xF0) * 0x40000 + (b1 - 0x80) * 0x1000 +
        (b2 - 0x80) * 0x40 + (b3 - 0x80)) := by
      have hc2 := h5.1.2
      have hc3 := h5.2
      simp only [contByte, Bool.and_eq_true, decide_eq_true_eq] at hc2 hc3
      have ha := h5.1.1
      unfold accept4 at ha
      split at ha
      · rename_i hF0
        simp only [Bool.and_eq_true, decide_eq_true_eq] at ha
        unfold ValidRune; omega
      · split at ha
        · rename_i hne hF4
          simp only [Bool.and_eq_true, decide_eq_true_eq] at ha
          unfold ValidRune; omega
        · rename_i hne hned
          simp only [contByte, Bool.and_eq_true, decide_eq_true_eq] at ha
          unfold ValidRune; omega
    exact forall_mem_cons_valid hv ih
  | case23 b0 b1 b2 b3 rest h1 h2 h3 h4 h5 ih =>
    rw [goDecode.eq_def]; simp only []
    rw [if_neg h1, if_neg h2, if_neg h3, if_neg h4, if_neg h5]
    exact forall_mem_cons_valid validRune_FFFD ih


theorem esc_not_mem_replicate_space (n : Nat) : 0x1B ∉ List.replicate n 0x20 := by
  simp [List.mem_replicate]

theorem writeRunes_fresh {W : Nat} {rs : List Nat} (h10 : 10 ∉ rs)
    (hesc : 0x1B ∉ rs) :
    (NewWriter W none).writeRunes rs =
      { NewWriter W none with buf := encodeRunes rs, lineLen := visibleWidth rs } := by
  rw [writeRunes_no_newline rs _ h10]
  have hfold : List.foldl ansiStep (NewWriter W none).ast (encodeRunes rs) =
      (NewWriter W none).ast :=
    foldl_ansiStep_skip rfl (esc_not_mem_encodeRunes hesc)
  rw [show ((encodeRunes rs).foldl ansiStep (NewWriter W none).ast) =
      (NewWriter W none).ast from hfold]
  simp [NewWriter, stripEscapes_no_esc hesc, inSeqAfter_no_esc hesc]

theorem pad_no_esc {w : Writer} (hp : w.PadFunc = none) (hast : w.ast.inSeq = false) :
    w.pad = { w with buf := w.buf ++ List.replicate (w.Padding - w.lineLen) 0x20 } := by
  rw [pad_default hp]
  unfold Writer.awWrite
  rw [foldl_ansiStep_skip hast (esc_not_mem_replicate_space _)]

theorem writeStep_newline {w : Writer} (ha : w.ansi = false) (hp : w.PadFunc = none)
    (hast : w.ast = initAnsi) :
    w.writeStep 10 =
      { w with buf := w.buf ++ (List.replicate (w.Padding - w.lineLen) 0x20 ++ [10]),
               lineLen := 0 } := by
  have h0 : runeWidth 10 = 0 := by decide
  have e1 : w.pad = { w with buf := w.buf ++ List.replicate (w.Padding - w.lineLen) 0x20 } :=
    pad_no_esc hp (by rw [hast]; rfl)
  have e2 : w.pad.resetAnsi = w.pad := by
    unfold Writer.resetAnsi
    rw [e1]
    simp [hast, initAnsi]
  simp only [Writer.writeStep]
  rw [if_neg (by decide : ¬ (10 : Nat) = 0x1B),
      if_neg (show ¬ w.ansi = true by simp [ha])]
  simp only [if_true, h0, Nat.add_zero]
  show ({ w.pad.resetAnsi with lineLen := 0 }).writeRune 10 = _
  rw [e2, e1]
  unfold Writer.writeRune Writer.awWrite
  rw [encodeRune_ascii (by norm_num)]
  rw [List.foldl_cons, List.foldl_nil, ansiStep_skip (by rw [hast]; rfl) (by decide)]
  simp [List.append_assoc]


theorem encodeRunes_append (a b : List Nat) :
    encodeRunes (a ++ b) = encodeRunes a ++ encodeRunes b := by
  induction a with
  | nil => rfl
  | cons r rs ih => simp [encodeRunes, ih]

theorem encodeRunes_replicate_space (n : Nat) :
    encodeRunes (List.replicate n 0x20) = List.replicate n 0x20 := by
  induction n with
  | zero => rfl
  | succ n ih =>
    rw [List.replicate_succ, encodeRunes, ih, encodeRune_ascii (by norm_num)]
    rfl

theorem stripEscapes_append (xs ys : List Nat) : ∀ b : Bool,
    stripEscapes b (xs ++ ys) =
      stripEscapes b xs ++ stripEscapes (inSeqAfter b xs) ys := by
  induction xs with
  | nil => intro b; rfl
  | cons c cs ih =>
    intro b
    by_cases hc : c = 0x1B
    · subst hc; simp [stripEscapes, inSeqAfter, ih]
    · by_cases hb : b
      · subst hb
        by_cases hl : isLetterRune c <;> simp [stripEscapes, inSeqAfter, hc, hl, ih]
      · simp only [Bool.not_eq_true] at hb
        subst hb
        simp [stripEscapes, inSeqAfter, hc, ih]

theorem styleActive_foldl_space (n : Nat) : ∀ st : AnsiState,
    ((List.replicate n 0x20).foldl ansiStep st).styleActive = st.styleActive := by
  induction n with
  | zero => intro st; rfl
  | succ n ih =>
    intro st
    rw [List.replicate_succ, List.foldl_cons, ih]
    unfold ansiStep
    split
    · omega
    · split
      · split
        · rename_i hlet
          simp [isLetterRune] at hlet
        · rfl
      · rfl

/-- Projection form of the line-feed step: at a line feed (outside an escape
sequence, default filler) the writer pads the pending line, emits a style
reset exactly when styling is active, forwards the line feed, and resets the
line length — regardless of the sink's escape-scan state. -/
theorem writeStep_newline_buf {w : Writer} (ha : w.ansi = false)
    (hp : w.PadFunc = none) :
    (w.writeStep 10).buf = w.buf ++ List.replicate (w.Padding - w.lineLen) 0x20
        ++ (if w.ast.styleActive then resetSeqBytes else []) ++ [10]
    ∧ (w.writeStep 10).lineLen = 0 := by
  have h0 : runeWidth 10 = 0 := by decide
  simp only [Writer.writeStep]
  rw [if_neg (by decide : ¬ (10 : Nat) = 0x1B),
      if_neg (show ¬ w.ansi = true by simp [ha])]
  simp only [if_true, h0, Nat.add_zero]
  show (({ w.pad.resetAnsi with lineLen := 0 }).writeRune 10).buf = _ ∧ _
  rw [pad_default hp]
  unfold Writer.resetAnsi Writer.writeRune Writer.awWrite
  rw [encodeRune_ascii (by norm_num)]
  rw [styleActive_foldl_space]
  by_cases hsa : w.ast.styleActive
  · rw [if_pos hsa, if_pos hsa]
    exact ⟨by simp [List.append_assoc], rfl⟩
  · rw [if_neg hsa, if_neg hsa]
    exact ⟨by simp [List.append_assoc], rfl⟩


/-- At target width 0 with the default filler and no escape introducer in
the stream, the writer forwards exactly the re-encoded codepoints: no filler
and no style reset is ever emitted, across any number of lines. -/
theorem writeRunes_width0 {cs : List Nat} : ∀ w : Writer, w.Padding = 0 →
    w.PadFunc = none → w.ansi = false → w.ast = initAnsi → 0x1B ∉ cs →
    (w.writeRunes cs).buf = w.buf ++ encodeRunes cs
    ∧ (w.writeRunes cs).Padding = 0 ∧ (w.writeRunes cs).PadFunc = none
    ∧ (w.writeRunes cs).ansi = false ∧ (w.writeRunes cs).ast = initAnsi := by
  induction cs with
  | nil =>
    intro w h1 h2 h3 h4 _
    simpa [Writer.writeRunes, encodeRunes] using ⟨h1, h2, h3, h4⟩
  | cons c cs ih =>
    intro w h1 h2 h3 h4 h5
    obtain ⟨P, pf, buf, cache, ll, a, ast⟩ := w
    simp only at h1 h2 h3 h4
    subst h1; subst h2; subst h3; subst h4
    simp only [List.mem_cons, not_or] at h5
    have hc : c ≠ 0x1B := Ne.symm h5.1
    simp only [Writer.writeRunes]
    by_cases h10 : c = 10
    · subst h10
      have hw' := @writeStep_newline (Writer.mk 0 none buf cache ll false initAnsi)
        rfl rfl rfl
      simp only [Nat.zero_sub, List.replicate_zero, List.nil_append] at hw'
      rw [hw']
      have hstep := ih (Writer.mk 0 none (buf ++ [10]) cache 0 false initAnsi)
        rfl rfl rfl rfl h5.2
      refine ⟨?_, hstep.2⟩
      rw [hstep.1]
      simp [encodeRunes, encodeRune_ascii (by norm_num : (10:Nat) < 0x80),
            List.append_assoc]
    · have hs : (Writer.mk 0 none buf cache ll false initAnsi).writeStep c =
          Writer.mk 0 none (buf ++ encodeRune c) cache (ll + runeWidth c) false
            initAnsi := by
        have hfold : (encodeRune c).foldl ansiStep initAnsi = initAnsi :=
          foldl_ansiStep_skip rfl (esc_not_mem_encodeRune hc)
        simp [Writer.writeStep, hc, h10, Writer.writeRune, Writer.awWrite, hfold]
      rw [hs]
      have hstep := ih (Writer.mk 0 none (buf ++ encodeRune c) cache
        (ll + runeWidth c) false initAnsi) rfl rfl rfl rfl h5.2
      refine ⟨?_, hstep.2⟩
      rw [hstep.1]
      simp [encodeRunes, List.append_assoc]

/-- While in escape-sequence mode, codepoints that are not terminating
letters keep the writer in escape mode and never advance the line length. -/
theorem writeRunes_in_escape {cs : List Nat} : ∀ w : Writer, w.ansi = true →
    (∀ c ∈ cs, isLetterRune c = false) →
    (w.writeRunes cs).ansi = true ∧ (w.writeRunes cs).lineLen = w.lineLen := by
  induction cs with
  | nil => exact fun w ha _ => ⟨ha, rfl⟩
  | cons c cs ih =>
    intro w ha hl
    have hstep : (w.writeStep c).ansi = true ∧ (w.writeStep c).lineLen = w.lineLen := by
      by_cases hc : c = 0x1B
      · subst hc
        simp [Writer.writeStep, Writer.writeRune, Writer.awWrite]
      · simp [Writer.writeStep, hc, ha, hl c (by simp), Writer.writeRune,
              Writer.awWrite]
    have hrest := ih (w.writeStep c) hstep.1 (fun x hx => hl x (by simp [hx]))
    simp only [Writer.writeRunes]
    exact ⟨hrest.1, by rw [hrest.2, hstep.2]⟩


theorem goDecode_ne_nil {bs : List Nat} (h : bs ≠ []) : goDecode bs ≠ [] := by
  match bs with
  | [] => exact absurd rfl h
  | b0 :: rest =>
    rcases rest with _ | ⟨b1, _ | ⟨b2, _ | ⟨b3, rs⟩⟩⟩ <;>
      (rw [goDecode.eq_def]; simp only []; repeat' split) <;> simp

/-- Against a sink that rejects every write, every loop iteration of the
pipe-flavor `Write` fails: each classification branch unconditionally
forwards the re-encoded codepoint, whose rejection is returned. -/
theorem writeStep_failSink (w : PWriter (List Nat)) (c : Nat) :
    w.writeStep failSink c = Except.error () := by
  unfold PWriter.writeStep
  by_cases hc : c = 0x1B
  · subst hc
    simp [PWriter.writeRune, PWriter.awWrite, failSink]
  · rw [if_neg hc]
    by_cases ha : w.ansi = true
    · simp [ha, PWriter.writeRune, PWriter.awWrite, failSink]
    · rw [if_neg ha]
      by_cases h10 : c = 10
      · subst h10
        rw [if_pos rfl]
        rcases hpad : PWriter.pad failSink
            { w with lineLen := w.lineLen + runeWidth 10 } with e | w2
        · simp [hpad]
        · simp [hpad, PWriter.writeRune, PWriter.awWrite, failSink]
      · rw [if_neg h10]
        simp [PWriter.writeRune, PWriter.awWrite, failSink]


/-- C1: for every target width `W` and every line of Unicode scalar values
with no escape introducer and no embedded line feed whose visible width `V`
is at most `W`, writing the line-feed-terminated line through a fresh
padding writer emits exactly the original content, then `W - V` filler
spaces, then the line feed — and the resulting line has exactly `W` visible
columns. -/
theorem padded_line_exact_width (W : Nat) (rs : List Nat)
    (hv : ∀ c ∈ rs, ValidRune c) (hesc : 0x1B ∉ rs) (h10 : 10 ∉ rs)
    (hW : visibleWidth rs ≤ W) :
    ((NewWriter W none).Write (encodeRunes (rs ++ [10]))).1.buf
      = encodeRunes rs ++ List.replicate (W - visibleWidth rs) 0x20 ++ [10]
    ∧ visibleWidth (rs ++ List.replicate (W - visibleWidth rs) 0x20) = W := by
  have hv' : ∀ c ∈ rs ++ [10], ValidRune c := by
    intro c hc
    rcases List.mem_append.mp hc with h | h
    · exact hv c h
    · simp only [List.mem_singleton] at h
      subst h
      decide
  constructor
  · show ((NewWriter W none).writeRunes (goDecode (encodeRunes (rs ++ [10])))).buf = _
    rw [goDecode_encodeRunes hv', writeRunes_append, writeRunes_fresh h10 hesc]
    rw [show ∀ v : Writer, v.writeRunes [10] = v.writeStep 10 from fun v => rfl]
    rw [(writeStep_newline_buf rfl rfl).1]
    simp [NewWriter, initAnsi, List.append_assoc]
  · rw [visibleWidth_append, visibleWidth_replicate_space]
    omega

/-- C1 witness: width 10, line `"hi"`. -/
theorem padded_line_exact_width_witness :
    ((∀ c ∈ [104, 105], ValidRune c) ∧ 0x1B ∉ ([104, 105] : List Nat)
      ∧ 10 ∉ ([104, 105] : List Nat) ∧ visibleWidth [104, 105] ≤ 10)
    ∧ (((NewWriter 10 none).Write (encodeRunes ([104, 105] ++ [10]))).1.buf
        = encodeRunes [104, 105]
          ++ List.replicate (10 - visibleWidth [104, 105]) 0x20 ++ [10]
      ∧ visibleWidth ([104, 105]
          ++ List.replicate (10 - visibleWidth [104, 105]) 0x20) = 10) :=
  ⟨⟨by decide, by decide, by decide, by decide⟩,
   padded_line_exact_width 10 [104, 105] (by decide) (by decide) (by decide)
     (by decide)⟩


/-- C2: after writing any codepoint stream with no line feed, the visible
line length equals its old value plus the total display width of exactly the
printable codepoints (escape-sequence codepoints — introducer, intermediate
bytes and terminating letter — contribute nothing), and the in-escape flag
matches the two-state machine; concretely, at width 5 the red-styled input
`"\x1b[31mhi\x1b[0m\n"` keeps the escape bytes unchanged, counts only
`"hi"`, and gains 3 filler spaces after the closing escape sequence and
before the line feed. -/
theorem lineLen_invariant_sum_printable (w : Writer) (cs : List Nat)
    (h10 : 10 ∉ cs) :
    ((w.writeRunes cs).lineLen
        = w.lineLen + visibleWidth (stripEscapes w.ansi cs)
      ∧ (w.writeRunes cs).ansi = inSeqAfter w.ansi cs)
    ∧ Bytes [27, 91, 51, 49, 109, 104, 105, 27, 91, 48, 109, 10] 5
        = [27, 91, 51, 49, 109, 104, 105, 27, 91, 48, 109, 32, 32, 32, 10] := by
  constructor
  · rw [writeRunes_no_newline cs w h10]
    exact ⟨rfl, rfl⟩
  · decide

/-- C2 witness: the red-styled scenario stream itself, at width 5. -/
theorem lineLen_invariant_sum_printable_witness :
    (10 ∉ ([27, 91, 51, 49, 109, 104, 105, 27, 91, 48, 109] : List Nat))
    ∧ (((NewWriter 5 none).writeRunes
          [27, 91, 51, 49, 109, 104, 105, 27, 91, 48, 109]).lineLen
        = (NewWriter 5 none).lineLen
          + visibleWidth (stripEscapes (NewWriter 5 none).ansi
              [27, 91, 51, 49, 109, 104, 105, 27, 91, 48, 109])
      ∧ (((NewWriter 5 none).writeRunes
          [27, 91, 51, 49, 109, 104, 105, 27, 91, 48, 109]).ansi
        = inSeqAfter (NewWriter 5 none).ansi
            [27, 91, 51, 49, 109, 104, 105, 27, 91, 48, 109]))
    ∧ Bytes [27, 91, 51, 49, 109, 104, 105, 27, 91, 48, 109, 10] 5
        = [27, 91, 51, 49, 109, 104, 105, 27, 91, 48, 109, 32, 32, 32, 10] :=
  ⟨by decide,
   lineLen_invariant_sum_printable (NewWriter 5 none)
     [27, 91, 51, 49, 109, 104, 105, 27, 91, 48, 109] (by decide)⟩

/-- C5: flushing a writer holding a pending unterminated line of nonzero
visible width pads that line in place without emitting a line break, moves
the buffer into the result cache (readable through the `Bytes` accessor),
empties the buffer, and resets the line length and in-escape flag — and
`Flush` resets those two transients for every writer state. -/
theorem flush_pads_pending_line (W : Nat) (rs : List Nat)
    (hv : ∀ c ∈ rs, ValidRune c) (hesc : 0x1B ∉ rs) (h10 : 10 ∉ rs)
    (hpos : 0 < visibleWidth rs) :
    ((((NewWriter W none).Write (encodeRunes rs)).1.Flush).Bytes
        = encodeRunes rs ++ List.replicate (W - visibleWidth rs) 0x20
      ∧ (((NewWriter W none).Write (encodeRunes rs)).1.Flush).buf = []
      ∧ (((NewWriter W none).Write (encodeRunes rs)).1.Flush).lineLen = 0
      ∧ (((NewWriter W none).Write (encodeRunes rs)).1.Flush).ansi = false)
    ∧ (∀ v : Writer, v.Flush.lineLen = 0 ∧ v.Flush.ansi = false) := by
  have hw1 : ((NewWriter W none).Write (encodeRunes rs)).1 =
      { NewWriter W none with buf := encodeRunes rs, lineLen := visibleWidth rs } := by
    show (NewWriter W none).writeRunes (goDecode (encodeRunes rs)) = _
    rw [goDecode_encodeRunes hv, writeRunes_fresh h10 hesc]
  refine ⟨?_, fun v => by simp [Writer.Flush]⟩
  rw [hw1]
  simp only [Writer.Flush]
  rw [if_pos (by simp [NewWriter]; omega)]
  rw [pad_no_esc rfl rfl]
  simp [Writer.Bytes, NewWriter]

/-- C5 witness: input `"ab"` with no trailing newline at width 4 finalizes
to `"ab  "`. -/
theorem flush_pads_pending_line_witness :
    ((∀ c ∈ [97, 98], ValidRune c) ∧ 0x1B ∉ ([97, 98] : List Nat)
      ∧ 10 ∉ ([97, 98] : List Nat) ∧ 0 < visibleWidth [97, 98])
    ∧ (((((NewWriter 4 none).Write (encodeRunes [97, 98])).1.Flush).Bytes
          = encodeRunes [97, 98]
            ++ List.replicate (4 - visibleWidth [97, 98]) 0x20
        ∧ ((((NewWriter 4 none).Write (encodeRunes [97, 98])).1.Flush)).buf = []
        ∧ ((((NewWriter 4 none).Write (encodeRunes [97, 98])).1.Flush)).lineLen = 0
        ∧ ((((NewWriter 4 none).Write (encodeRunes [97, 98])).1.Flush)).ansi = false)
      ∧ (∀ v : Writer, v.Flush.lineLen = 0 ∧ v.Flush.ansi = false)) :=
  ⟨⟨by decide, by decide, by decide, by decide⟩,
   flush_pads_pending_line 4 [97, 98] (by decide) (by decide) (by decide)
     (by decide)⟩

/-- C7: seeing the escape introducer switches the writer into
escape-sequence mode without touching the line length; while in that mode,
any stream of non-letter codepoints — however long — leaves the writer in
escape mode with the line length unchanged (a permissive policy, not an
error); and a terminating ASCII letter leaves the mode, still without
counting any width. -/
theorem unterminated_escape_permissive (w : Writer) (cs : List Nat) :
    ((w.writeStep 0x1B).ansi = true ∧ (w.writeStep 0x1B).lineLen = w.lineLen)
    ∧ (w.ansi = true → (∀ c ∈ cs, isLetterRune c = false) →
        (w.writeRunes cs).ansi = true ∧ (w.writeRunes cs).lineLen = w.lineLen)
    ∧ (∀ c : Nat, w.ansi = true → isLetterRune c = true →
        (w.writeStep c).ansi = false ∧ (w.writeStep c).lineLen = w.lineLen) := by
  refine ⟨?_, fun ha hl => writeRunes_in_escape w ha hl, ?_⟩
  · constructor <;> simp [Writer.writeStep, Writer.writeRune, Writer.awWrite]
  · intro c ha hl
    have hc : c ≠ 0x1B := by
      intro h
      subst h
      simp [isLetterRune] at hl
    constructor <;> simp [Writer.writeStep, hc, ha, hl, Writer.writeRune,
      Writer.awWrite]

/-- C7 witness: a writer mid-escape (after `"\x1b["`) fed the non-letter
stream `"12;"` stays in escape mode with line length unchanged. -/
theorem unterminated_escape_permissive_witness :
    (((NewWriter 5 none).writeRunes [27, 91]).ansi = true
      ∧ (∀ c ∈ ([49, 50, 59] : List Nat), isLetterRune c = false))
    ∧ (((((NewWriter 5 none).writeRunes [27, 91]).writeStep 0x1B).ansi = true
        ∧ ((((NewWriter 5 none).writeRunes [27, 91]).writeStep 0x1B)).lineLen
            = ((NewWriter 5 none).writeRunes [27, 91]).lineLen)
      ∧ ((((NewWriter 5 none).writeRunes [27, 91])).ansi = true →
          (∀ c ∈ ([49, 50, 59] : List Nat), isLetterRune c = false) →
          ((((NewWriter 5 none).writeRunes [27, 91])).writeRunes
              [49, 50, 59]).ansi = true
          ∧ ((((NewWriter 5 none).writeRunes [27, 91])).writeRunes
              [49, 50, 59]).lineLen
            = (((NewWriter 5 none).writeRunes [27, 91])).lineLen)
      ∧ (∀ c : Nat, (((NewWriter 5 none).writeRunes [27, 91])).ansi = true →
          isLetterRune c = true →
          ((((NewWriter 5 none).writeRunes [27, 91])).writeStep c).ansi = false
          ∧ ((((NewWriter 5 none).writeRunes [27, 91])).writeStep c).lineLen
            = (((NewWriter 5 none).writeRunes [27, 91])).lineLen)) :=
  ⟨⟨by decide, by decide⟩,
   unterminated_escape_permissive ((NewWriter 5 none).writeRunes [27, 91])
     [49, 50, 59]⟩

/-- C9: `Flush` first clears the result cache and then drains the (already
emptied) buffer, so a second `Flush` with no intervening write leaves the
cache empty and both result accessors return empty data. -/
theorem second_flush_yields_empty (w : Writer) :
    w.Flush.Flush.cache = [] ∧ w.Flush.Flush.Bytes = []
    ∧ w.Flush.Flush.String = [] := by
  refine ⟨?_, ?_, ?_⟩ <;> simp [Writer.Flush, Writer.Bytes, Writer.String]


/-- C3 counterexample: at width 0 the output is not byte-for-byte identical
for every input — the single invalid UTF-8 byte `0xFF` is re-encoded as the
three-byte replacement character, so `Bytes [0xFF] 0 ≠ [0xFF]`. -/
theorem unchanged_at_width0_cex :
    Bytes [0xFF] 0 = [0xEF, 0xBF, 0xBD] ∧ Bytes [0xFF] 0 ≠ [0xFF] := by
  constructor <;> decide

/-- C3 (amended): for lines of Unicode scalar values with no escape
introducer whose visible width is at least `W`, the newline-terminated
output line is the input line unchanged; and at width 0 any
roundtrip-clean (valid UTF-8) input with no escape introducer passes
through byte-for-byte with no filler. -/
theorem unchanged_when_full_or_width0 :
    (∀ (W : Nat) (rs : List Nat), (∀ c ∈ rs, ValidRune c) → 0x1B ∉ rs →
      10 ∉ rs → W ≤ visibleWidth rs →
      ((NewWriter W none).Write (encodeRunes (rs ++ [10]))).1.buf
        = encodeRunes (rs ++ [10]))
    ∧ (∀ bs : List Nat, GoRoundtrip bs → 0x1B ∉ goDecode bs →
        Bytes bs 0 = bs) := by
  constructor
  · intro W rs hv hesc h10 hW
    have hv' : ∀ c ∈ rs ++ [10], ValidRune c := by
      intro c hc
      rcases List.mem_append.mp hc with h | h
      · exact hv c h
      · simp only [List.mem_singleton] at h
        subst h
        decide
    show ((NewWriter W none).writeRunes (goDecode (encodeRunes (rs ++ [10])))).buf = _
    rw [goDecode_encodeRunes hv', writeRunes_append, writeRunes_fresh h10 hesc]
    rw [show ∀ v : Writer, v.writeRunes [10] = v.writeStep 10 from fun v => rfl]
    rw [(writeStep_newline_buf rfl rfl).1]
    have hz : W - visibleWidth rs = 0 := by omega
    simp [NewWriter, initAnsi, hz, encodeRunes_append, encodeRunes,
          encodeRune_ascii (by norm_num : (10 : Nat) < 0x80)]
  · intro bs hrt hesc
    have h0 := @writeRunes_width0 (goDecode bs) (NewWriter 0 none)
      rfl rfl rfl rfl hesc
    show (if ((NewWriter 0 none).writeRunes (goDecode bs)).lineLen ≠ 0
        then ((NewWriter 0 none).writeRunes (goDecode bs)).pad
        else ((NewWriter 0 none).writeRunes (goDecode bs))).buf = bs
    split
    · rw [pad_default h0.2.2.1]
      unfold Writer.awWrite
      rw [h0.2.1]
      simp only [Nat.zero_sub, List.replicate_zero, List.append_nil]
      rw [h0.1]
      simpa [NewWriter] using hrt
    · rw [h0.1]
      simpa [NewWriter] using hrt

/-- C3 witness: the full-line arm at width 2 with line `"hi"` (visible width
2 ≥ 2), and the width-0 arm on the valid styled input `"hi"`. -/
theorem unchanged_when_full_or_width0_witness :
    ((∀ c ∈ [104, 105], ValidRune c) ∧ 0x1B ∉ ([104, 105] : List Nat)
      ∧ 10 ∉ ([104, 105] : List Nat) ∧ 2 ≤ visibleWidth [104, 105]
      ∧ GoRoundtrip [104, 105, 10, 120] ∧ 0x1B ∉ goDecode [104, 105, 10, 120])
    ∧ ((NewWriter 2 none).Write (encodeRunes ([104, 105] ++ [10]))).1.buf
        = encodeRunes ([104, 105] ++ [10])
    ∧ Bytes [104, 105, 10, 120] 0 = [104, 105, 10, 120] :=
  ⟨⟨by decide, by decide, by decide, by decide, by decide, by decide⟩,
   unchanged_when_full_or_width0.1 2 [104, 105] (by decide) (by decide)
     (by decide) (by decide),
   unchanged_when_full_or_width0.2 [104, 105, 10, 120] (by decide) (by decide)⟩


/-- C4 counterexample: the one-shot helper does not pad an only-escapes
line that lacks a line-feed terminator — `Bytes "\x1b[31m" 5` returns the
input with zero filler columns, because both `Bytes` and `Flush` guard the
fill step with `lineLen != 0`. -/
theorem onlyescapes_oneshot_not_padded_cex :
    Bytes [27, 91, 51, 49, 109] 5 = [27, 91, 51, 49, 109]
    ∧ (Bytes [27, 91, 51, 49, 109] 5).count 0x20 = 0 := by
  constructor <;> decide

/-- C4 (amended): a line of terminated escape sequences and no printable
codepoints has visible line length 0; when terminated by a line feed it is
padded to the full width `W` (filler after the escape bytes, then a style
reset if styling is active, then the line feed); but when finalized by the
one-shot `Bytes` helper or by `Flush` with no line feed, the `lineLen != 0`
guard skips the fill step and no padding is emitted. -/
theorem onlyescapes_padding_modes (W : Nat) (es : List Nat)
    (hv : ∀ c ∈ es, ValidRune c) (h10 : 10 ∉ es)
    (hstrip : stripEscapes false es = []) (hterm : inSeqAfter false es = false)
    (_hW : 0 < W) :
    ((NewWriter W none).Write (encodeRunes es)).1.lineLen = 0
    ∧ ((NewWriter W none).Write (encodeRunes (es ++ [10]))).1.buf
      = encodeRunes es ++ List.replicate W 0x20
        ++ (if ((encodeRunes es).foldl ansiStep initAnsi).styleActive
            then resetSeqBytes else []) ++ [10]
    ∧ Bytes (encodeRunes es) W = encodeRunes es
    ∧ (((NewWriter W none).Write (encodeRunes es)).1.Flush).Bytes
        = encodeRunes es := by
  have hv' : ∀ c ∈ es ++ [10], ValidRune c := by
    intro c hc
    rcases List.mem_append.mp hc with h | h
    · exact hv c h
    · simp only [List.mem_singleton] at h
      subst h
      decide
  have hw1 : (NewWriter W none).writeRunes es =
      { NewWriter W none with buf := encodeRunes es, lineLen := 0,
                              ansi := false,
                              ast := (encodeRunes es).foldl ansiStep initAnsi } := by
    rw [writeRunes_no_newline es _ h10]
    simp [NewWriter, hstrip, hterm, visibleWidth, initAnsi]
  refine ⟨?_, ?_, ?_, ?_⟩
  · show ((NewWriter W none).writeRunes (goDecode (encodeRunes es))).lineLen = 0
    rw [goDecode_encodeRunes hv, hw1]
  · show ((NewWriter W none).writeRunes
      (goDecode (encodeRunes (es ++ [10])))).buf = _
    rw [goDecode_encodeRunes hv', writeRunes_append, hw1]
    rw [show ∀ v : Writer, v.writeRunes [10] = v.writeStep 10 from fun v => rfl]
    rw [(writeStep_newline_buf rfl rfl).1]
    simp [NewWriter, List.append_assoc]
  · show (if ((NewWriter W none).writeRunes
          (goDecode (encodeRunes es))).lineLen ≠ 0
        then ((NewWriter W none).writeRunes (goDecode (encodeRunes es))).pad
        else ((NewWriter W none).writeRunes (goDecode (encodeRunes es)))).buf
        = encodeRunes es
    rw [goDecode_encodeRunes hv, hw1]
    rw [if_neg (by simp)]
  · show ((((NewWriter W none).writeRunes
        (goDecode (encodeRunes es)))).Flush).Bytes = encodeRunes es
    rw [goDecode_encodeRunes hv, hw1]
    simp only [Writer.Flush]
    rw [if_neg (by simp)]
    simp [Writer.Bytes]

/-- C4 witness: the red-style sequence `"\x1b[31m"` at width 5. -/
theorem onlyescapes_padding_modes_witness :
    ((∀ c ∈ [27, 91, 51, 49, 109], ValidRune c)
      ∧ 10 ∉ ([27, 91, 51, 49, 109] : List Nat)
      ∧ stripEscapes false [27, 91, 51, 49, 109] = []
      ∧ inSeqAfter false [27, 91, 51, 49, 109] = false ∧ 0 < 5)
    ∧ (((NewWriter 5 none).Write (encodeRunes [27, 91, 51, 49, 109])).1.lineLen = 0
      ∧ ((NewWriter 5 none).Write
          (encodeRunes ([27, 91, 51, 49, 109] ++ [10]))).1.buf
        = encodeRunes [27, 91, 51, 49, 109] ++ List.replicate 5 0x20
          ++ (if ((encodeRunes [27, 91, 51, 49, 109]).foldl ansiStep
                initAnsi).styleActive then resetSeqBytes else []) ++ [10]
      ∧ Bytes (encodeRunes [27, 91, 51, 49, 109]) 5
        = encodeRunes [27, 91, 51, 49, 109]
      ∧ (((NewWriter 5 none).Write
          (encodeRunes [27, 91, 51, 49, 109])).1.Flush).Bytes
        = encodeRunes [27, 91, 51, 49, 109]) :=
  ⟨⟨by decide, by decide, by decide, by decide, by decide⟩,
   onlyescapes_padding_modes 5 [27, 91, 51, 49, 109] (by decide) (by decide)
     (by decide) (by decide) (by decide)⟩


/-- Unfolding of the one-shot helper: run the write loop, then pad once if a
line is pending. -/
theorem Bytes_eq_run (b : List Nat) (W : Nat) :
    Bytes b W = (if ((NewWriter W none).writeRunes (goDecode b)).lineLen ≠ 0
      then ((NewWriter W none).writeRunes (goDecode b)).pad
      else (NewWriter W none).writeRunes (goDecode b)).buf := rfl

theorem String_eq_Bytes (s : List Nat) (W : Nat) : String s W = Bytes s W := rfl

/-- Normalized run of the write loop on a newline-free codepoint stream from
a fresh default writer. -/
theorem writeRunes_fresh_general (W : Nat) (cs : List Nat) (h10 : 10 ∉ cs) :
    (NewWriter W none).writeRunes cs =
      { NewWriter W none with
          buf := encodeRunes cs,
          lineLen := visibleWidth (stripEscapes false cs),
          ansi := inSeqAfter false cs,
          ast := (encodeRunes cs).foldl ansiStep initAnsi } := by
  rw [writeRunes_no_newline cs _ h10]
  simp [NewWriter, initAnsi]

/-- The one-shot helper adds no filler to an encoded line whose counted
width is zero (nothing pending) or already at least the target width. -/
theorem Bytes_no_fill (cs : List Nat) (W : Nat)
    (hv : ∀ c ∈ cs, ValidRune c) (h10 : 10 ∉ cs)
    (hLW : visibleWidth (stripEscapes false cs) = 0
      ∨ W ≤ visibleWidth (stripEscapes false cs)) :
    Bytes (encodeRunes cs) W = encodeRunes cs := by
  rw [Bytes_eq_run, goDecode_encodeRunes hv, writeRunes_fresh_general W cs h10]
  by_cases hz : visibleWidth (stripEscapes false cs) = 0
  · rw [if_neg (by simp [NewWriter, hz])]
  · rw [if_pos (by simp [NewWriter, hz]), pad_default rfl]
    show encodeRunes cs
        ++ List.replicate (W - visibleWidth (stripEscapes false cs)) 0x20
      = encodeRunes cs
    rw [show W - visibleWidth (stripEscapes false cs) = 0 from by
      rcases hLW with h | h
      · exact absurd h hz
      · omega]
    simp

/-- C8 counterexample: padding is not idempotent for a line that ends inside
an unterminated escape sequence: for `s = "a\x1b["` at width 3 the first
pass appends two filler spaces, but on the second pass those spaces sit
inside the still-open escape sequence, are not counted, and two further
spaces are appended. -/
theorem pad_idempotent_cex :
    String [97, 27, 91] 3 = [97, 27, 91, 32, 32]
    ∧ String (String [97, 27, 91] 3) 3 = [97, 27, 91, 32, 32, 32, 32]
    ∧ String (String [97, 27, 91] 3) 3 ≠ String [97, 27, 91] 3
    ∧ visibleWidth (stripEscapes false (goDecode [97, 27, 91])) ≤ 3 := by
  refine ⟨by decide, by decide, by decide, by decide⟩

/-- C8 (amended): padding is idempotent at the chosen width for every line
that does not end inside an unterminated escape sequence: a second
application of the one-shot padding transform with the same width emits no
additional filler. -/
theorem pad_idempotent (W : Nat) (s : List Nat)
    (h10 : 10 ∉ goDecode s) (hterm : inSeqAfter false (goDecode s) = false) :
    String (String s W) W = String s W := by
  have hv : ∀ c ∈ goDecode s, ValidRune c := validRune_goDecode s
  simp only [String_eq_Bytes]
  rw [Bytes_eq_run s W, writeRunes_fresh_general W (goDecode s) h10]
  by_cases hL : visibleWidth (stripEscapes false (goDecode s)) = 0
  · rw [if_neg (by simp [NewWriter, hL])]
    show Bytes (encodeRunes (goDecode s)) W = encodeRunes (goDecode s)
    exact Bytes_no_fill (goDecode s) W hv h10 (Or.inl hL)
  · rw [if_pos (by simp [NewWriter, hL]), pad_default rfl]
    show Bytes (encodeRunes (goDecode s)
        ++ List.replicate
          (W - visibleWidth (stripEscapes false (goDecode s))) 0x20) W
      = encodeRunes (goDecode s)
        ++ List.replicate
          (W - visibleWidth (stripEscapes false (goDecode s))) 0x20
    have henc : encodeRunes (goDecode s) ++ List.replicate
        (W - visibleWidth (stripEscapes false (goDecode s))) 0x20
      = encodeRunes (goDecode s ++ List.replicate
          (W - visibleWidth (stripEscapes false (goDecode s))) 0x20) := by
      rw [encodeRunes_append, encodeRunes_replicate_space]
    have hv2 : ∀ c ∈ goDecode s ++ List.replicate
        (W - visibleWidth (stripEscapes false (goDecode s))) 0x20,
        ValidRune c := by
      intro c hc
      rcases List.mem_append.mp hc with h | h
      · exact hv c h
      · rw [List.eq_of_mem_replicate h]
        decide
    have h10' : 10 ∉ goDecode s ++ List.replicate
        (W - visibleWidth (stripEscapes false (goDecode s))) 0x20 := by
      simp only [List.mem_append, not_or]
      exact ⟨h10, by simp [List.mem_replicate]⟩
    have hesc' : 0x1B ∉ List.replicate
        (W - visibleWidth (stripEscapes false (goDecode s))) 0x20 :=
      esc_not_mem_replicate_space _
    have hwid : visibleWidth (stripEscapes false (goDecode s ++ List.replicate
        (W - visibleWidth (stripEscapes false (goDecode s))) 0x20))
      = visibleWidth (stripEscapes false (goDecode s))
        + (W - visibleWidth (stripEscapes false (goDecode s))) := by
      rw [stripEscapes_append, hterm, stripEscapes_no_esc hesc',
          visibleWidth_append, visibleWidth_replicate_space]
    rw [henc]
    exact Bytes_no_fill _ W hv2 h10' (Or.inr (by rw [hwid]; omega))

/-- C8 witness: the styled line `"\x1b[31mhi"` (terminated escape sequence,
no newline) at width 4. -/
theorem pad_idempotent_witness :
    (10 ∉ goDecode [27, 91, 51, 49, 109, 104, 105]
      ∧ inSeqAfter false (goDecode [27, 91, 51, 49, 109, 104, 105]) = false)
    ∧ String (String [27, 91, 51, 49, 109, 104, 105] 4) 4
        = String [27, 91, 51, 49, 109, 104, 105] 4 :=
  ⟨⟨by decide, by decide⟩,
   pad_idempotent 4 [27, 91, 51, 49, 109, 104, 105] (by decide) (by decide)⟩


/-- C6 counterexample: with a caller-supplied filler policy, a sink that
rejects the filler writes (here: any write containing `*` = `0x2A`) does
not cause `Write` to return an error — `pad` invokes the `PaddingFunc',
whose signature has no error channel, so the rejections are swallowed and
`Write` reports success with the full byte count while the filler is
missing from the sink. -/
theorem sink_error_swallowed_custom_filler_cex :
    PWriter.Write noStarSink (NewWriterPipe ([] : List Nat) 3 (some [0x2A])) [97, 10]
      = Except.ok ({ NewWriterPipe ([] : List Nat) 3 (some [0x2A]) with fwd := [97, 10] }, 2)
    ∧ noStarSink [97] [0x2A] = Except.error () := by
  constructor <;> rfl

/-- C6 (amended): on success `Write` always reports a byte count equal to
its input length; with the default space filler a rejected sink write is
returned: the fill step returns the sink's error, and against a sink that
rejects every write, `Write` on any nonempty input fails with the sink's
error. -/
theorem sink_error_propagation :
    (∀ (σ : Type) (snk : PSink σ) (w : PWriter σ) (bs : List Nat)
        (w1 : PWriter σ) (n : Nat),
        PWriter.Write snk w bs = Except.ok (w1, n) → n = bs.length)
    ∧ (∀ (σ : Type) (snk : PSink σ) (w : PWriter σ), w.PadFunc = none →
        0 < w.Padding → w.lineLen < w.Padding →
        snk w.fwd (List.replicate (w.Padding - w.lineLen) 0x20)
          = Except.error () →
        w.pad snk = Except.error ())
    ∧ (∀ (w : PWriter (List Nat)) (bs : List Nat), bs ≠ [] →
        PWriter.Write failSink w bs = Except.error ()) := by
  refine ⟨?_, ?_, ?_⟩
  · intro σ snk w bs w1 n h
    unfold PWriter.Write at h
    rcases hrun : PWriter.writeRunes snk w (goDecode bs) with e | w2 <;>
      rw [hrun] at h
    · exact absurd h (by simp)
    · simp only [Except.ok.injEq, Prod.mk.injEq] at h
      exact h.2.symm
  · intro σ snk w hp h1 h2 herr
    unfold PWriter.pad
    rw [if_pos ⟨h1, h2⟩, hp]
    unfold PWriter.awWrite
    rw [herr]
  · intro w bs hne
    unfold PWriter.Write
    rcases hd : goDecode bs with _ | ⟨c, cs⟩
    · exact absurd hd (goDecode_ne_nil hne)
    · simp only [PWriter.writeRunes, writeStep_failSink w c]

/-- C6 witness: count on success via the never-failing list sink; the
default-filler fill step surfacing the error; and the failing-sink write. -/
theorem sink_error_propagation_witness :
    ((PWriter.Write listSink (NewWriterPipe ([] : List Nat) 2 none) [97]
        = Except.ok ({ NewWriterPipe ([] : List Nat) 2 none with fwd := [97], lineLen := 1 }, 1))
      ∧ (NewWriterPipe ([] : List Nat) 2 none).PadFunc = none
      ∧ 0 < (NewWriterPipe ([] : List Nat) 2 none).Padding
      ∧ (NewWriterPipe ([] : List Nat) 2 none).lineLen
          < (NewWriterPipe ([] : List Nat) 2 none).Padding
      ∧ failSink (NewWriterPipe ([] : List Nat) 2 none).fwd
          (List.replicate ((NewWriterPipe ([] : List Nat) 2 none).Padding
            - (NewWriterPipe ([] : List Nat) 2 none).lineLen) 0x20)
          = Except.error ()
      ∧ ([97] : List Nat) ≠ [])
    ∧ (1 : Nat) = ([97] : List Nat).length
    ∧ (NewWriterPipe ([] : List Nat) 2 none).pad failSink = Except.error ()
    ∧ PWriter.Write failSink (NewWriterPipe ([] : List Nat) 2 none) [97]
        = Except.error () :=
  ⟨⟨rfl, rfl, by decide, by decide, rfl, by decide⟩,
   sink_error_propagation.1 (List Nat) listSink (NewWriterPipe ([] : List Nat) 2 none) [97]
     { NewWriterPipe ([] : List Nat) 2 none with fwd := [97], lineLen := 1 } 1 rfl,
   sink_error_propagation.2.1 (List Nat) failSink (NewWriterPipe ([] : List Nat) 2 none)
     rfl (by decide) (by decide) rfl,
   sink_error_propagation.2.2 (NewWriterPipe ([] : List Nat) 2 none) [97] (by decide)⟩


/-- C10: `Write` decodes its input as UTF-8 and re-encodes every decoded
codepoint before forwarding.  A byte at which no UTF-8 sequence can start
(a stray continuation byte `0x80..0xBF` or a lead byte above `0xF4`)
decodes to the replacement character U+FFFD consuming one byte; U+FFFD
re-encodes as the three bytes `EF BF BD` and counts one visible column; and
for any newline-free input that does not survive the decode/re-encode
roundtrip, the forwarded bytes differ from the input even at width 0. -/
theorem invalid_utf8_replacement :
    (∀ (rs : List Nat) (b : Nat) (rest : List Nat), (∀ c ∈ rs, ValidRune c) →
      ((0x80 ≤ b ∧ b < 0xC0) ∨ 0xF5 ≤ b) →
      goDecode (encodeRunes rs ++ b :: rest) = rs ++ 0xFFFD :: goDecode rest)
    ∧ encodeRune 0xFFFD = [0xEF, 0xBF, 0xBD]
    ∧ runeWidth 0xFFFD = 1
    ∧ (∀ bs : List Nat, ¬ GoRoundtrip bs → 10 ∉ goDecode bs →
        Bytes bs 0 = encodeRunes (goDecode bs) ∧ Bytes bs 0 ≠ bs) := by
  refine ⟨?_, by decide, by decide, ?_⟩
  · intro rs b rest hv hb
    rw [goDecode_encodeRunes_append hv, goDecode_invalid1 (by omega) (by omega)]
  · intro bs hrt h10
    have hbuf : Bytes bs 0 = encodeRunes (goDecode bs) := by
      rw [Bytes_eq_run, writeRunes_fresh_general 0 (goDecode bs) h10]
      by_cases hz : visibleWidth (stripEscapes false (goDecode bs)) = 0
      · rw [if_neg (by simp [NewWriter, hz])]
      · rw [if_pos (by simp [NewWriter, hz]), pad_default rfl]
        show encodeRunes (goDecode bs) ++ List.replicate
            (0 - visibleWidth (stripEscapes false (goDecode bs))) 0x20
          = encodeRunes (goDecode bs)
        simp
    exact ⟨hbuf, by rw [hbuf]; exact hrt⟩

/-- C10 witness: one valid rune followed by the stray continuation byte
`0x80`, and the invalid one-byte input `0xFF` at width 0. -/
theorem invalid_utf8_replacement_witness :
    ((∀ c ∈ [104], ValidRune c) ∧ ((0x80 ≤ 0x80 ∧ 0x80 < 0xC0) ∨ 0xF5 ≤ 0x80)
      ∧ ¬ GoRoundtrip [0xFF] ∧ 10 ∉ goDecode [0xFF])
    ∧ goDecode (encodeRunes [104] ++ 0x80 :: [])
        = [104] ++ 0xFFFD :: goDecode []
    ∧ (Bytes [0xFF] 0 = encodeRunes (goDecode [0xFF])
      ∧ Bytes [0xFF] 0 ≠ [0xFF]) :=
  ⟨⟨by decide, by decide, by decide, by decide⟩,
   invalid_utf8_replacement.1 [104] 0x80 [] (by decide) (by decide),
   invalid_utf8_replacement.2.2.2 [0xFF] (by decide) (by decide)⟩

end Reflow
